import Mathlib

/-!
Shallow embedding of `agent_demo_20240527/utils_drag_teaching.py` (drag
teaching controller for a master/slave servo rig): the easing and
interpolation used by playback, the playback step-count selection, the
post-recording trimming, the mode guard on `record`, the playback write
loop's exception behaviour, and the action-library save/load path.

Machine floats of the source are embedded as rationals; numpy's
`np.round` (round half to even) is `npRound`; Python's `int(...)` on the
decimal string keys of the persisted library is `pyInt?`; a Python dict
is an association list whose `dictInsert` removes the overwritten key.
-/

namespace DragTeach

/-- Model of numpy's `np.round` (round half to even) on rationals. -/
def npRound (q : ℚ) : ℤ :=
  if Int.fract q < 1/2 then ⌊q⌋
  else if 1/2 < Int.fract q then ⌊q⌋ + 1
  else if ⌊q⌋ % 2 = 0 then ⌊q⌋ else ⌊q⌋ + 1

/-- The easing applied inside `TeachingTest.interpolate_positions`:
`t = 2 * t * t if t < 0.5 else 1 - ((-2 * t + 2) ** 2) / 2`. -/
def easeInOutQuad (t : ℚ) : ℚ :=
  if t < 1/2 then 2 * t * t else 1 - ((-2 * t + 2) ^ 2) / 2

/-- `TeachingTest.interpolate_positions(self, start_pos, end_pos, steps)`:
for `i in range(steps)` take `t = i / (steps - 1)`, ease it, and append
`np.round(start_pos + (end_pos - start_pos) * t)`, componentwise over the
joint vectors. -/
def interpolate_positions (start_pos end_pos : List ℤ) (steps : ℕ) :
    List (List ℤ) :=
  (List.range steps).map fun (i : ℕ) =>
    List.zipWith
      (fun (s e : ℤ) => npRound ((s : ℚ) + ((e : ℚ) - (s : ℚ)) *
        easeInOutQuad ((i : ℚ) / ((steps : ℚ) - 1))))
      start_pos end_pos

/-- The step-count selection in `TeachingTest.play`:
`steps = 3 if max_diff < 100 else 5 if max_diff < 300 else 7`. -/
def chooseSteps (max_diff : ℤ) : ℕ :=
  if max_diff < 100 then 3 else if max_diff < 300 then 5 else 7

/-- `max_diff = np.max(np.abs(end_pos - start_pos))` in `TeachingTest.play`
(componentwise absolute difference, then the maximum; `0` for the empty
vector, which does not occur for a real joint vector). -/
def maxDiff (start_pos end_pos : List ℤ) : ℤ :=
  (List.zipWith (fun (s e : ℤ) => |e - s|) start_pos end_pos).foldr max 0

/-- The interpolated points `TeachingTest.play` writes for a stored
waypoint sequence, in write order: for each consecutive pair it
interpolates with the step count chosen from `max_diff`. -/
def playPoints (positions : List (List ℤ)) : List (List ℤ) :=
  ((positions.zip positions.tail).map fun pr =>
    interpolate_positions pr.1 pr.2 (chooseSteps (maxDiff pr.1 pr.2))).flatten

/-- Exception semantics of the write loop in `TeachingTest.play`, whose
single `try` encloses the whole loop over waypoint pairs: returns the
points successfully written before the first raising write, and whether
the `except` branch (which logs `play_error`) ran. -/
def writeUntilError (failing : List ℤ → Bool) :
    List (List ℤ) → List (List ℤ) × Bool
  | [] => ([], false)
  | p :: rest =>
    if failing p then ([], true)
    else
      let r := writeUntilError failing rest
      (p :: r.1, r.2)

/-- `TeachingTest.edit_recording`: `rec[3:]` when the leading trim is
confirmed, then `rec[:-3]` when the trailing trim is confirmed and more
than 3 points are present. -/
def edit_recording (rec : List (List ℤ)) (trim_start trim_end : Bool) :
    List (List ℤ) :=
  let rec1 := if trim_start then rec.drop 3 else rec
  if trim_end = true ∧ 3 < rec1.length then rec1.take (rec1.length - 3)
  else rec1

/-- One persisted or in-memory action entry: the dict
`{"positions": ..., "name": ..., "timestamp": ...}`; `positions = none`
models a persisted dict that lacks the `"positions"` key. -/
structure ActionEntry where
  positions : Option (List (List ℤ))
  name : String
  timestamp : String
deriving DecidableEq

/-- Python dict assignment `record_list[action_number] = {...}`: any
earlier binding of the key is overwritten. -/
def dictInsert (l : List (ℤ × ActionEntry)) (k : ℤ) (v : ActionEntry) :
    List (ℤ × ActionEntry) :=
  (l.filter fun p => decide (p.1 ≠ k)) ++ [(k, v)]

/-- Reply of a mode request: `started`, or `busy` for the guard that
prints `already_in_remote_mode` and returns without touching any state. -/
inductive ModeReply where
  | started
  | busy
deriving DecidableEq

/-- The `TeachingTest` state the claims touch: `self.recording`,
`self.remote_mode`, `self.current_recording`, `self.record_list`. -/
structure TeachingState where
  recording : Bool
  remote_mode : Bool
  current_recording : List (List ℤ)
  record_list : List (ℤ × ActionEntry)
deriving DecidableEq

/-- `TeachingTest.record`: when `self.remote_mode` is set it only prints
`already_in_remote_mode` and returns; otherwise it clears
`current_recording`, sets `recording` and starts the sampling worker. -/
def record (s : TeachingState) : TeachingState × ModeReply :=
  if s.remote_mode then (s, ModeReply.busy)
  else ({ s with current_recording := [], recording := true },
        ModeReply.started)

/-- Decimal digit run folded to a number, as Python's `int` reads it. -/
def digitsVal (cs : List Char) : ℕ :=
  cs.foldl (fun n c => n * 10 + (c.toNat - Char.toNat '0')) 0

/-- Model of Python's `int(k)` on the string keys of the persisted
library: an optional minus sign followed by decimal digits; anything else
raises (returns `none`). -/
def pyInt? (s : String) : Option ℤ :=
  match s.data with
  | [] => none
  | '-' :: cs =>
    if cs ≠ [] ∧ cs.all Char.isDigit then some (-(digitsVal cs : ℤ))
    else none
  | cs =>
    if cs.all Char.isDigit then some ((digitsVal cs : ℤ)) else none

/-- The body of `TeachingTest.save_recording_with_number` (and the saving
branch of `save_recording`): with no recorded data it only prints
`no_data_save`; otherwise it stores
`{"positions": current_recording.copy(), "name": name or
"Action_{action_number}", "timestamp": now}` under `action_number`. -/
def save_recording_with_number (s : TeachingState) (action_number : ℤ)
    (action_name now : String) : TeachingState :=
  if s.current_recording = [] then s
  else
    let entry : ActionEntry :=
      { positions := some s.current_recording
        name := if action_name = "" then "Action_" ++ toString action_number
                else action_name
        timestamp := now }
    { s with record_list := dictInsert s.record_list action_number entry }

/-- `TeachingTest.save_to_file`: `json.dump(self.record_list, f)` — JSON
turns the integer slot keys into their decimal strings. -/
def save_to_file (record_list : List (ℤ × ActionEntry)) :
    List (String × ActionEntry) :=
  record_list.map fun p => (toString p.1, p.2)

/-- The conversion inside `TeachingTest.load_from_local`:
`{int(k): v for k, v in data.items() if "positions" in v}` — entries
without a `positions` field are dropped before their key is even read; a
key of a kept entry that `int` cannot parse raises, which the caller's
`except` turns into a failed load. -/
def convertEntries :
    List (String × ActionEntry) → Except Unit (List (ℤ × ActionEntry))
  | [] => Except.ok []
  | (k, v) :: rest =>
    if v.positions.isSome then
      match pyInt? k with
      | some n => (convertEntries rest).map (fun r => (n, v) :: r)
      | none => Except.error ()
    else convertEntries rest

/-- What the filesystem gives `TeachingTest.load_from_local`: no file
(`os.path.exists` false), a file that `open`/`json.load` fails on, or
parsed JSON content. -/
inductive FileRead where
  | missing
  | unreadable
  | content (data : List (String × ActionEntry))

/-- `TeachingTest.load_from_local`: `self.record_list` is replaced only
when the whole pipeline (read, parse, key conversion) succeeds; every
failure is caught and only printed. -/
def load_from_local (s : TeachingState) (file : FileRead) : TeachingState :=
  match file with
  | FileRead.missing => s
  | FileRead.unreadable => s
  | FileRead.content data =>
    match convertEntries data with
    | Except.ok l => { s with record_list := l }
    | Except.error _ => s

/-! Helper lemmas about rounding and easing. -/

lemma npRound_intCast (n : ℤ) : npRound ((n : ℚ)) = n := by
  unfold npRound
  rw [Int.fract_intCast, Int.floor_intCast]
  norm_num

lemma le_npRound {a : ℤ} {q : ℚ} (h : (a : ℚ) ≤ q) : a ≤ npRound q := by
  have hfl : a ≤ ⌊q⌋ := Int.le_floor.mpr h
  unfold npRound
  split_ifs <;> omega

lemma floor_lt_of_half_le_fract {b : ℤ} {q : ℚ} (h : q ≤ (b : ℚ))
    (hf : (1 : ℚ)/2 ≤ Int.fract q) : ⌊q⌋ < b := by
  have h1 : ⌊q⌋ ≤ b := by
    have := Int.floor_mono h
    rwa [Int.floor_intCast] at this
  rcases eq_or_lt_of_le h1 with he | hl
  · exfalso
    have hfq : ((⌊q⌋ : ℚ)) + Int.fract q = q := Int.floor_add_fract q
    have hbq : ((⌊q⌋ : ℚ)) = (b : ℚ) := by exact_mod_cast he
    linarith
  · exact hl

lemma npRound_le {b : ℤ} {q : ℚ} (h : q ≤ (b : ℚ)) : npRound q ≤ b := by
  have h1 : ⌊q⌋ ≤ b := by
    have := Int.floor_mono h
    rwa [Int.floor_intCast] at this
  unfold npRound
  split_ifs with h2 h3 h4
  · exact h1
  · have := floor_lt_of_half_le_fract h (le_of_lt h3)
    omega
  · exact h1
  · have := floor_lt_of_half_le_fract h (not_lt.mp h2)
    omega

lemma easeInOutQuad_zero : easeInOutQuad 0 = 0 := by
  norm_num [easeInOutQuad]

lemma easeInOutQuad_one : easeInOutQuad 1 = 1 := by
  norm_num [easeInOutQuad]

lemma easeInOutQuad_mono {t s : ℚ} (h0 : 0 ≤ t) (hts : t ≤ s) (hs1 : s ≤ 1) :
    easeInOutQuad t ≤ easeInOutQuad s := by
  unfold easeInOutQuad
  split_ifs with h1 h2 h2
  · nlinarith
  · nlinarith
  · linarith
  · nlinarith

lemma easeInOutQuad_nonneg {t : ℚ} (h0 : 0 ≤ t) (h1 : t ≤ 1) :
    0 ≤ easeInOutQuad t := by
  unfold easeInOutQuad
  split_ifs with h2
  · nlinarith
  · nlinarith

lemma easeInOutQuad_le_one {t : ℚ} (h0 : 0 ≤ t) (h1 : t ≤ 1) :
    easeInOutQuad t ≤ 1 := by
  unfold easeInOutQuad
  split_ifs with h2
  · nlinarith
  · nlinarith

/-! Helper lemmas about `zipWith`. -/

lemma zipWith_eq_left {f : ℤ → ℤ → ℤ} (hf : ∀ a b, f a b = a) :
    ∀ (A B : List ℤ), A.length = B.length → List.zipWith f A B = A
  | [], [], _ => rfl
  | [], _ :: _, h => by simp at h
  | _ :: _, [], h => by simp at h
  | a :: A, b :: B, h => by
    simp only [List.zipWith_cons_cons, hf]
    rw [zipWith_eq_left hf A B (by simpa using h)]

lemma zipWith_eq_right {f : ℤ → ℤ → ℤ} (hf : ∀ a b, f a b = b) :
    ∀ (A B : List ℤ), A.length = B.length → List.zipWith f A B = B
  | [], [], _ => rfl
  | [], _ :: _, h => by simp at h
  | _ :: _, [], h => by simp at h
  | a :: A, b :: B, h => by
    simp only [List.zipWith_cons_cons, hf]
    rw [zipWith_eq_right hf A B (by simpa using h)]

lemma getElem?_zipWith_some {f : ℤ → ℤ → ℤ} :
    ∀ (A B : List ℤ) (j : ℕ) (a b : ℤ), A[j]? = some a → B[j]? = some b →
      (List.zipWith f A B)[j]? = some (f a b)
  | [], _, j, a, b, ha, _ => by simp at ha
  | _ :: _, [], j, a, b, _, hb => by simp at hb
  | x :: A, y :: B, 0, a, b, ha, hb => by
    simp only [List.getElem?_cons_zero, Option.some.injEq] at ha hb
    simp [List.zipWith_cons_cons, ha, hb]
  | x :: A, y :: B, j + 1, a, b, ha, hb => by
    simp only [List.getElem?_cons_succ] at ha hb
    simpa using getElem?_zipWith_some A B j a b ha hb

lemma interpolate_get (A B : List ℤ) (steps : ℕ) (i : ℕ) (hi : i < steps) :
    (interpolate_positions A B steps)[i]? =
      some (List.zipWith
        (fun (s e : ℤ) => npRound ((s : ℚ) + ((e : ℚ) - (s : ℚ)) *
          easeInOutQuad ((i : ℚ) / ((steps : ℚ) - 1))))
        A B) := by
  unfold interpolate_positions
  rw [List.getElem?_map, List.getElem?_range hi]
  rfl

/-- C2: for integer joint vectors `A`, `B` of equal length and `steps ≥ 2`,
`interpolate_positions A B steps` has `steps` entries, its first entry is
`A` and its last entry is `B` (exactly: at the endpoints the eased
parameter is `0` resp. `1` and rounding an integer is the identity). -/
theorem interpolate_endpoints (A B : List ℤ) (steps : ℕ)
    (h2 : 2 ≤ steps) (hlen : A.length = B.length) :
    (interpolate_positions A B steps).length = steps ∧
    (interpolate_positions A B steps)[0]? = some A ∧
    (interpolate_positions A B steps)[steps - 1]? = some B := by
  have hcast : (2 : ℚ) ≤ (steps : ℚ) := by exact_mod_cast h2
  refine ⟨by simp [interpolate_positions], ?_, ?_⟩
  · rw [interpolate_get A B steps 0 (by omega)]
    congr 1
    apply zipWith_eq_left _ A B hlen
    intro a b
    have ht : ((0 : ℕ) : ℚ) / ((steps : ℚ) - 1) = 0 := by simp
    rw [ht, easeInOutQuad_zero]
    rw [show ((a : ℚ) + ((b : ℚ) - (a : ℚ)) * 0) = ((a : ℚ)) by ring]
    exact npRound_intCast a
  · rw [interpolate_get A B steps (steps - 1) (by omega)]
    congr 1
    apply zipWith_eq_right _ A B hlen
    intro a b
    have hne : ((steps : ℚ) - 1) ≠ 0 := by linarith
    have ht : (((steps - 1 : ℕ)) : ℚ) / ((steps : ℚ) - 1) = 1 := by
      rw [Nat.cast_sub (by omega)]
      push_cast
      exact div_self hne
    rw [ht, easeInOutQuad_one]
    rw [show ((a : ℚ) + ((b : ℚ) - (a : ℚ)) * 1) = ((b : ℚ)) by ring]
    exact npRound_intCast b

/-- C2 witness: the concrete instance `A = [1,2,3]`, `B = [4,5,6]`,
`steps = 3`. -/
theorem interpolate_endpoints_witness :
    (interpolate_positions [1, 2, 3] [4, 5, 6] 3).length = 3 ∧
    (interpolate_positions [1, 2, 3] [4, 5, 6] 3)[0]? = some [1, 2, 3] ∧
    (interpolate_positions [1, 2, 3] [4, 5, 6] 3)[2]? = some [4, 5, 6] :=
  interpolate_endpoints [1, 2, 3] [4, 5, 6] 3 (by norm_num) rfl

/-- C10: for equal-length integer joint vectors and `steps ≥ 2`, every
vector produced by `interpolate_positions` lies componentwise in the
closed interval between the corresponding components of start and end:
the eased parameter stays in `[0,1]` and rounding respects the integer
bounds. -/
theorem interpolate_in_range (A B : List ℤ) (steps : ℕ) (h2 : 2 ≤ steps)
    (v : List ℤ) (hv : v ∈ interpolate_positions A B steps)
    (j : ℕ) (a b p : ℤ) (ha : A[j]? = some a) (hb : B[j]? = some b)
    (hp : v[j]? = some p) :
    min a b ≤ p ∧ p ≤ max a b := by
  unfold interpolate_positions at hv
  obtain ⟨i, hi, rfl⟩ := List.mem_map.mp hv
  have hilt : i < steps := List.mem_range.mp hi
  have hcast : (2 : ℚ) ≤ (steps : ℚ) := by exact_mod_cast h2
  have hden : (0 : ℚ) < (steps : ℚ) - 1 := by linarith
  have ht0 : (0 : ℚ) ≤ (i : ℚ) / ((steps : ℚ) - 1) :=
    div_nonneg (by positivity) (le_of_lt hden)
  have ht1 : (i : ℚ) / ((steps : ℚ) - 1) ≤ 1 := by
    rw [div_le_one hden]
    have : (i : ℚ) < (steps : ℚ) := by exact_mod_cast hilt
    have hle : i + 1 ≤ steps := hilt
    have : ((i : ℚ)) + 1 ≤ (steps : ℚ) := by exact_mod_cast hle
    linarith
  have he0 : 0 ≤ easeInOutQuad ((i : ℚ) / ((steps : ℚ) - 1)) :=
    easeInOutQuad_nonneg ht0 ht1
  have he1 : easeInOutQuad ((i : ℚ) / ((steps : ℚ) - 1)) ≤ 1 :=
    easeInOutQuad_le_one ht0 ht1
  have hzip := getElem?_zipWith_some
    (f := fun (s e : ℤ) => npRound ((s : ℚ) + ((e : ℚ) - (s : ℚ)) *
      easeInOutQuad ((i : ℚ) / ((steps : ℚ) - 1))))
    A B j a b ha hb
  rw [hzip] at hp
  have hpv : p = npRound ((a : ℚ) + ((b : ℚ) - (a : ℚ)) *
      easeInOutQuad ((i : ℚ) / ((steps : ℚ) - 1))) := (Option.some.inj hp).symm
  subst hpv
  constructor
  · apply le_npRound
    rcases le_total a b with hab | hab
    · rw [min_eq_left hab]
      have hab' : (a : ℚ) ≤ (b : ℚ) := by exact_mod_cast hab
      nlinarith
    · rw [min_eq_right hab]
      have hab' : (b : ℚ) ≤ (a : ℚ) := by exact_mod_cast hab
      nlinarith
  · apply npRound_le
    rcases le_total a b with hab | hab
    · rw [max_eq_right hab]
      have hab' : (a : ℚ) ≤ (b : ℚ) := by exact_mod_cast hab
      nlinarith
    · rw [max_eq_left hab]
      have hab' : (b : ℚ) ≤ (a : ℚ) := by exact_mod_cast hab
      nlinarith

/-- C10 witness: the middle interpolated point of `[0] → [10]` with
`steps = 3` is `[5]`, which lies within `[0, 10]`. -/
theorem interpolate_in_range_witness :
    min (0 : ℤ) 10 ≤ 5 ∧ (5 : ℤ) ≤ max 0 10 := by
  have hval : interpolate_positions [0] [10] 3 = [[0], [5], [10]] := by
    simp only [interpolate_positions, List.range_succ, List.range_zero,
      List.map_append, List.map_cons, List.map_nil, List.nil_append,
      List.cons_append, List.zipWith_cons_cons, List.zipWith_nil_right,
      List.cons.injEq, and_true]
    norm_num [npRound, easeInOutQuad, Int.fract]
  exact interpolate_in_range [0] [10] 3 (by norm_num) [5]
    (by rw [hval]; simp) 0 0 10 5 rfl rfl rfl

/-- C4: the easing function is monotonically non-decreasing on `[0,1]`
and takes the values `0`, `1`, `1/2` at `0`, `1`, `1/2`. -/
theorem ease_monotone_endpoint_values :
    (∀ t s : ℚ, 0 ≤ t → t ≤ s → s ≤ 1 →
      easeInOutQuad t ≤ easeInOutQuad s) ∧
    easeInOutQuad 0 = 0 ∧ easeInOutQuad 1 = 1 ∧
    easeInOutQuad (1/2) = 1/2 := by
  refine ⟨fun t s h0 hts hs1 => easeInOutQuad_mono h0 hts hs1,
    easeInOutQuad_zero, easeInOutQuad_one, ?_⟩
  norm_num [easeInOutQuad]

/-- C4 witness: monotonicity applied at the concrete pair `1/4 ≤ 3/4`. -/
theorem ease_monotone_endpoint_values_witness :
    easeInOutQuad (1/4) ≤ easeInOutQuad (3/4) :=
  ease_monotone_endpoint_values.1 (1/4) (3/4) (by norm_num) (by norm_num)
    (by norm_num)

/-- C1: a `record` request while the mirroring (remote teleoperation)
mode is active is rejected as busy and performs no state change: the
whole state (recording flag, recording buffer, action library) is
returned untouched and the mirroring flag remains set. -/
theorem record_busy_while_mirroring (s : TeachingState)
    (h : s.remote_mode = true) :
    record s = (s, ModeReply.busy) ∧
    (record s).1.recording = s.recording ∧
    (record s).1.current_recording = s.current_recording ∧
    (record s).1.remote_mode = true := by
  simp [record, h]

/-- C1 witness: a concrete mirroring-active state with the recording
flag down. -/
theorem record_busy_while_mirroring_witness :
    record ⟨false, true, [[0]], []⟩ =
      (⟨false, true, [[0]], []⟩, ModeReply.busy) :=
  (record_busy_while_mirroring ⟨false, true, [[0]], []⟩ rfl).1

/-- C3: the playback step count is `3` when `max_diff < 100`, `5` when
`100 ≤ max_diff < 300` and `7` otherwise, for the `max_diff` of any
consecutive waypoint pair; in particular `50 → 3`, `150 → 5`, `500 → 7`,
and at the boundaries `100 → 5` and `300 → 7`. -/
theorem play_step_selection :
    (∀ a b : List ℤ, maxDiff a b < 100 → chooseSteps (maxDiff a b) = 3) ∧
    (∀ a b : List ℤ, 100 ≤ maxDiff a b → maxDiff a b < 300 →
      chooseSteps (maxDiff a b) = 5) ∧
    (∀ a b : List ℤ, 300 ≤ maxDiff a b → chooseSteps (maxDiff a b) = 7) ∧
    chooseSteps 50 = 3 ∧ chooseSteps 150 = 5 ∧ chooseSteps 500 = 7 ∧
    chooseSteps 100 = 5 ∧ chooseSteps 300 = 7 := by
  refine ⟨?_, ?_, ?_, by decide, by decide, by decide, by decide, by decide⟩
  · intro a b h
    simp [chooseSteps, h]
  · intro a b h1 h2
    unfold chooseSteps
    rw [if_neg (by omega), if_pos h2]
  · intro a b h
    unfold chooseSteps
    rw [if_neg (by omega), if_neg (by omega)]

/-- C3 witness: a concrete waypoint pair with `max_diff = 150`. -/
theorem play_step_selection_witness :
    chooseSteps (maxDiff [0] [150]) = 5 :=
  play_step_selection.2.1 [0] [150] (by decide) (by decide)

/-- C5 fails as stated: on a recording of 4 waypoints with only the
trailing trim requested, applying the trim leaves 1 < 3 points, so the
claim requires the trim to be skipped (result unchanged); the code trims
whenever more than 3 points are present and returns a single point. -/
theorem edit_recording_counterexample :
    edit_recording [[0], [1], [2], [3]] false true = [[0]] ∧
    edit_recording [[0], [1], [2], [3]] false true ≠ [[0], [1], [2], [3]] := by
  decide

/-- C5 (amended): trimming drops exactly the 3 leading frames when the
leading trim is requested and exactly the 3 trailing frames when the
trailing trim is requested, except that the trailing trim is skipped
when at most 3 points are present at that moment (it is applied whenever
more than 3 points are present, even if fewer than 3 would remain); a
recording of 10 waypoints with both trims requested yields the 4
waypoints at original indices 3 through 6. -/
theorem edit_recording_trims (rec : List (List ℤ)) :
    (edit_recording rec true false = rec.drop 3) ∧
    (edit_recording rec false false = rec) ∧
    (3 < rec.length → edit_recording rec false true =
      rec.take (rec.length - 3)) ∧
    (rec.length ≤ 3 → edit_recording rec false true = rec) ∧
    (3 < rec.length - 3 → edit_recording rec true true =
      (rec.drop 3).take (rec.length - 6)) ∧
    (rec.length - 3 ≤ 3 → edit_recording rec true true = rec.drop 3) ∧
    (rec.length = 10 → edit_recording rec true true = (rec.drop 3).take 4) := by
  refine ⟨?_, ?_, ?_, ?_, ?_, ?_, ?_⟩
  · simp [edit_recording]
  · simp [edit_recording]
  · intro h
    simp [edit_recording, h]
  · intro h
    simp [edit_recording, show ¬ (3 : ℕ) < rec.length from by omega]
  · intro h
    simp [edit_recording, show (3 : ℕ) < rec.length - 3 from h]
    omega
  · intro h
    simp [edit_recording, show ¬ (3 : ℕ) < rec.length - 3 from by omega]
  · intro h
    simp [edit_recording, show (3 : ℕ) < rec.length - 3 from by omega]
    omega

/-- C5 witness for the amended claim: the 10-waypoint example with both
trims yields the waypoints at original indices 3 through 6. -/
theorem edit_recording_trims_witness :
    edit_recording [[0], [1], [2], [3], [4], [5], [6], [7], [8], [9]]
      true true = [[3], [4], [5], [6]] :=
  ((edit_recording_trims
    [[0], [1], [2], [3], [4], [5], [6], [7], [8], [9]]).2.2.2.2.2.2
    rfl).trans (by decide)

/-- C6 fails as stated: for the action `[[0],[10],[20]]` the write
sequence is `[[0],[5],[10],[10],[15],[20]]`; when the bus write of the
single point `[5]` raises, the one `try` of `play` that wraps the whole
loop catches it (the error is logged), but no later point is written:
`[0]` remains the only written point and `[20]` is never written,
although the claim requires the remaining points to still be written. -/
theorem play_write_error_counterexample :
    playPoints [[0], [10], [20]] = [[0], [5], [10], [10], [15], [20]] ∧
    writeUntilError (fun p => decide (p = [5]))
      (playPoints [[0], [10], [20]]) = ([[0]], true) ∧
    [20] ∉ (writeUntilError (fun p => decide (p = [5]))
      (playPoints [[0], [10], [20]])).1 := by
  have h1 : interpolate_positions [0] [10] 3 = [[0], [5], [10]] := by
    simp only [interpolate_positions, List.range_succ, List.range_zero,
      List.map_append, List.map_cons, List.map_nil, List.nil_append,
      List.cons_append, List.zipWith_cons_cons, List.zipWith_nil_right,
      List.cons.injEq, and_true]
    norm_num [npRound, easeInOutQuad, Int.fract]
  have h2 : interpolate_positions [10] [20] 3 = [[10], [15], [20]] := by
    simp only [interpolate_positions, List.range_succ, List.range_zero,
      List.map_append, List.map_cons, List.map_nil, List.nil_append,
      List.cons_append, List.zipWith_cons_cons, List.zipWith_nil_right,
      List.cons.injEq, and_true]
    norm_num [npRound, easeInOutQuad, Int.fract]
  have hs1 : chooseSteps (maxDiff [0] [10]) = 3 := by decide
  have hs2 : chooseSteps (maxDiff [10] [20]) = 3 := by decide
  have hp : playPoints [[0], [10], [20]] =
      [[0], [5], [10], [10], [15], [20]] := by
    simp [playPoints, hs1, hs2, h1, h2]
  refine ⟨hp, ?_, ?_⟩
  · rw [hp]
    decide
  · rw [hp]
    decide

/-- C6 (amended): a raising bus write during playback is caught by the
single `try`/`except` of `play` — the error is logged and `play` returns
normally — but it aborts the remainder of the sequence: exactly the
interpolated points before the first failing write are written, and the
error branch runs exactly when some point's write fails. -/
theorem play_write_error_aborts (failing : List ℤ → Bool)
    (positions : List (List ℤ)) :
    writeUntilError failing (playPoints positions) =
      ((playPoints positions).takeWhile (fun p => !failing p),
       (playPoints positions).any failing) := by
  generalize playPoints positions = pts
  induction pts with
  | nil => rfl
  | cons p rest ih =>
    by_cases hf : failing p
    · simp [writeUntilError, hf, List.takeWhile_cons, List.any_cons]
    · simp [writeUntilError, hf, ih, List.takeWhile_cons, List.any_cons]

/-! Helper lemmas for the persistence path. -/

lemma pyInt?_toString_slot {n : ℤ} (h1 : 1 ≤ n) (h10 : n ≤ 10) :
    pyInt? (toString n) = some n := by
  interval_cases n <;> decide

lemma lookup_append_right (k : ℤ) (l1 l2 : List (ℤ × ActionEntry))
    (h : ∀ p ∈ l1, p.1 ≠ k) : (l1 ++ l2).lookup k = l2.lookup k := by
  induction l1 with
  | nil => rfl
  | cons hd tl ih =>
    obtain ⟨a, v⟩ := hd
    have ha : a ≠ k := h (a, v) (by simp)
    have hbeq : (k == a) = false := beq_eq_false_iff_ne.mpr fun hk => ha hk.symm
    simp only [List.cons_append, List.lookup, hbeq]
    exact ih fun p hp => h p (List.mem_cons_of_mem _ hp)

lemma convertEntries_save_to_file :
    ∀ (rl : List (ℤ × ActionEntry)),
      (∀ p ∈ rl, pyInt? (toString p.1) = some p.1) →
      convertEntries (save_to_file rl) =
        Except.ok (rl.filter fun p => p.2.positions.isSome) := by
  intro rl
  induction rl with
  | nil => intro _; rfl
  | cons hd tl ih =>
    intro hkeys
    obtain ⟨k, v⟩ := hd
    have hk : pyInt? (toString k) = some k := hkeys (k, v) (by simp)
    have htl := ih fun p hp => hkeys p (List.mem_cons_of_mem _ hp)
    by_cases hpos : v.positions.isSome
    · simp only [save_to_file, convertEntries, hpos, hk, List.map_cons,
        if_pos, List.filter_cons_of_pos]
      rw [show List.map (fun p => (toString p.1, p.2)) tl = save_to_file tl
        from rfl, htl]
      rfl
    · simp only [save_to_file, convertEntries, hpos, List.map_cons, if_neg,
        Bool.not_eq_true, List.filter_cons_of_neg]
      rw [show List.map (fun p => (toString p.1, p.2)) tl = save_to_file tl
        from rfl, htl]

/-- C7: saving the current recording to a valid slot and reloading the
persisted representation yields the same positions at that slot, with the
slot key normalized back to the integer (round trip through the decimal
string keys of the JSON file), for any prior library whose keys persist
faithfully. -/
theorem save_load_roundtrip (s : TeachingState) (n : ℤ) (nm now : String)
    (h1 : 1 ≤ n) (h10 : n ≤ 10) (hrec : s.current_recording ≠ [])
    (hkeys : ∀ p ∈ s.record_list, pyInt? (toString p.1) = some p.1) :
    ∃ l, convertEntries (save_to_file
        (save_recording_with_number s n nm now).record_list) =
      Except.ok l ∧
      ∃ e, l.lookup n = some e ∧
        e.positions = some s.current_recording := by
  have hn : pyInt? (toString n) = some n := pyInt?_toString_slot h1 h10
  set e0 : ActionEntry :=
    { positions := some s.current_recording
      name := if nm = "" then "Action_" ++ toString n else nm
      timestamp := now } with he0
  have hsave : (save_recording_with_number s n nm now).record_list =
      dictInsert s.record_list n e0 := by
    simp [save_recording_with_number, hrec, he0]
  rw [hsave]
  have hkeys' : ∀ p ∈ dictInsert s.record_list n e0,
      pyInt? (toString p.1) = some p.1 := by
    intro p hp
    rcases List.mem_append.mp hp with hp | hp
    · exact hkeys p (List.mem_of_mem_filter hp)
    · have hpe : p = (n, e0) := by simpa using hp
      rw [hpe]
      exact hn
  refine ⟨_, convertEntries_save_to_file _ hkeys', ?_⟩
  unfold dictInsert
  rw [List.filter_append]
  have hfil1 : (([(n, e0)]).filter fun p => p.2.positions.isSome) =
      [(n, e0)] := by
    simp [he0]
  rw [hfil1]
  rw [lookup_append_right n _ _ ?hne]
  case hne =>
    intro p hp
    have hp1 := (List.mem_filter.mp (List.mem_filter.mp hp).1).2
    exact of_decide_eq_true hp1
  refine ⟨e0, ?_, rfl⟩
  simp [List.lookup]

/-- C7 witness: positions `[[1,2,3],[4,5,6]]` saved to slot 3 from an
empty library. -/
theorem save_load_roundtrip_witness :
    ∃ l, convertEntries (save_to_file
        (save_recording_with_number
          ⟨false, false, [[1, 2, 3], [4, 5, 6]], []⟩ 3 "" "ts").record_list) =
      Except.ok l ∧
      ∃ e, l.lookup 3 = some e ∧
        e.positions = some [[1, 2, 3], [4, 5, 6]] :=
  save_load_roundtrip ⟨false, false, [[1, 2, 3], [4, 5, 6]], []⟩ 3 "" "ts"
    (by norm_num) (by norm_num) (by decide) (by simp)

/-- C8: for a persisted source whose positions-bearing entries have
integer keys (the persisted schema), the load succeeds, its values are
exactly the values of the entries that carry a `positions` field in
order (entries lacking it are skipped, all others are loaded), and each
kept entry appears under its normalized integer key. -/
theorem load_partial_success (data : List (String × ActionEntry))
    (hkeys : ∀ p ∈ data, p.2.positions.isSome = true →
      (pyInt? p.1).isSome = true) :
    ∃ l, convertEntries data = Except.ok l ∧
      l.map Prod.snd =
        ((data.filter fun p => p.2.positions.isSome).map Prod.snd) ∧
      ∀ p ∈ data, p.2.positions.isSome = true →
        ∃ i, pyInt? p.1 = some i ∧ (i, p.2) ∈ l := by
  induction data with
  | nil => exact ⟨[], rfl, rfl, by simp⟩
  | cons hd tl ih =>
    obtain ⟨k, v⟩ := hd
    obtain ⟨l, hl, hmap, hmem⟩ :=
      ih fun p hp h => hkeys p (List.mem_cons_of_mem _ hp) h
    by_cases hpos : v.positions.isSome
    · obtain ⟨i, hi⟩ := Option.isSome_iff_exists.mp
        (hkeys (k, v) (by simp) hpos)
      refine ⟨(i, v) :: l, ?_, ?_, ?_⟩
      · simp [convertEntries, hpos, hi, hl, Except.map]
      · simp [List.filter_cons, hpos, hmap]
      · intro p hp hps
        rcases List.mem_cons.mp hp with rfl | hp'
        · exact ⟨i, hi, by simp⟩
        · obtain ⟨j, hj, hjl⟩ := hmem p hp' hps
          exact ⟨j, hj, List.mem_cons_of_mem _ hjl⟩
    · refine ⟨l, by simp [convertEntries, hpos, hl], ?_, ?_⟩
      · simp [List.filter_cons, hpos, hmap]
      · intro p hp hps
        rcases List.mem_cons.mp hp with rfl | hp'
        · exact absurd hps hpos
        · exact hmem p hp' hps

/-- C8 witness: a three-entry source whose middle entry lacks the
`positions` field (and has a key `int` could not even parse): the other
two entries are loaded under keys 1 and 2. -/
theorem load_partial_success_witness :
    ∃ l, convertEntries
        [("1", ⟨some [[1]], "a", "t"⟩), ("oops", ⟨none, "broken", "t"⟩),
         ("2", ⟨some [[2]], "b", "t"⟩)] = Except.ok l ∧
      l.map Prod.snd =
        ((([("1", (⟨some [[1]], "a", "t"⟩ : ActionEntry)),
            ("oops", ⟨none, "broken", "t"⟩),
            ("2", ⟨some [[2]], "b", "t"⟩)].filter
          fun p => p.2.positions.isSome)).map Prod.snd) ∧
      ∀ p ∈ [("1", (⟨some [[1]], "a", "t"⟩ : ActionEntry)),
          ("oops", ⟨none, "broken", "t"⟩), ("2", ⟨some [[2]], "b", "t"⟩)],
        p.2.positions.isSome = true →
        ∃ i, pyInt? p.1 = some i ∧ (i, p.2) ∈ l :=
  load_partial_success
    [("1", ⟨some [[1]], "a", "t"⟩), ("oops", ⟨none, "broken", "t"⟩),
     ("2", ⟨some [[2]], "b", "t"⟩)] (by decide)

/-- C9: when the load pipeline fails — the file is unreadable or its
JSON is malformed (`FileRead.unreadable`), or a kept entry's key cannot
be converted to an integer (`convertEntries` raises) — the caught
exception leaves the whole state, in particular `record_list`, exactly
as it was. -/
theorem load_atomic_on_error (s : TeachingState) (file : FileRead)
    (h : file = FileRead.unreadable ∨ ∃ data,
      file = FileRead.content data ∧
      convertEntries data = Except.error ()) :
    load_from_local s file = s := by
  rcases h with rfl | ⟨data, rfl, herr⟩
  · rfl
  · simp [load_from_local, herr]

/-- C9 witness: a source whose single entry has positions but an
unparseable key leaves a nonempty prior library untouched. -/
theorem load_atomic_on_error_witness :
    load_from_local ⟨false, false, [], [(1, ⟨some [[1]], "a", "t"⟩)]⟩
      (FileRead.content [("x", ⟨some [[2]], "b", "t"⟩)]) =
    ⟨false, false, [], [(1, ⟨some [[1]], "a", "t"⟩)]⟩ :=
  load_atomic_on_error ⟨false, false, [], [(1, ⟨some [[1]], "a", "t"⟩)]⟩
    (FileRead.content [("x", ⟨some [[2]], "b", "t"⟩)])
    (Or.inr ⟨[("x", ⟨some [[2]], "b", "t"⟩)], rfl, rfl⟩)

end DragTeach
